import Mathlib

/-!
Verification of the FrogLLM repository against its specification.

The repository ships the Python build/release tooling (`src/build.py`,
`src/release.py`) and three HTTP test suites (`src/test_api.py`,
`src/test_hard_task.py`, `src/test_search_download.py`).  The Go server
core that the tests exercise (lifecycle manager, download manager,
resolver, dispatcher) is not part of the source tree, so the claims about
it are settled against models built from the specification text; each
such definition is marked `Modelled from the spec:`.  The claims about
`build.py` and `release.py` are settled against direct embeddings of the
Python functions.
-/

namespace FrogLLM

/-! ## Embedding of `src/release.py` `validate_version` (lines 406-420) -/

/-- Python-style split of a character list on a single separator character,
as used by `version[1:].split('.')` in `src/release.py` line 414.  Python's
`str.split(sep)` always returns a non-empty list: splitting the empty
string yields one empty piece, and adjacent separators yield empty
pieces. -/
def pySplit (sep : Char) : List Char → List (List Char)
  | [] => [[]]
  | c :: cs =>
    match pySplit sep cs with
    | [] => [[]]
    | piece :: rest =>
      if c = sep then [] :: piece :: rest
      else (c :: piece) :: rest

/-- `validate_version` from `src/release.py` lines 406-420: returns `False`
unless the version starts with the character `v`; then strips the `v`,
splits the remainder on `.`, and returns `False` when fewer than two
pieces result; otherwise returns `True`.  No numeric check is performed on
the pieces. -/
def validate_version (version : List Char) : Bool :=
  match version with
  | [] => false
  | c :: rest => c == 'v' && decide (2 ≤ (pySplit '.' rest).length)

/-! ## Embedding of `src/build.py` `check_dependencies` (lines 213-246) -/

/-- Outcome of one `subprocess.run` call in `src/build.py`: the call either
completes and reports a return code, or raises an exception. -/
inductive RunOutcome
  | completed (returncode : Int)
  | raised
deriving DecidableEq

/-- `check_dependencies` from `src/build.py` lines 213-246, as a function of
the outcomes of the `npm --version` and `go version` subprocess calls.
The Python control flow is: if `npm --version` completes with return code
0, fall through to the Go check; if it completes with a nonzero return
code, print `npm not found` and `return True`; if it raises, `return
False`.  The Go check returns `False` on a nonzero return code or an
exception, and the function ends with `return True`. -/
def check_dependencies (npm go : RunOutcome) : Bool :=
  match npm with
  | .raised => false
  | .completed rc =>
    if rc = 0 then
      match go with
      | .raised => false
      | .completed grc => if grc = 0 then true else false
    else
      true

/-! ## Embedding of `src/release.py` `calculate_sha256` (lines 129-135)

The file content is a list of bytes (naturals below 256).  SHA-256 is
implemented over naturals with explicit reduction modulo `2 ^ 32`. -/

/-- Reduce to a 32-bit word. -/
def w32 (n : Nat) : Nat := n % 2 ^ 32

/-- Right rotation of a 32-bit word by `n` places. -/
def rotr32 (n x : Nat) : Nat := w32 ((x >>> n) ||| (x <<< (32 - n)))

/-- Bitwise complement of a 32-bit word. -/
def not32 (x : Nat) : Nat := Nat.xor x (2 ^ 32 - 1) % 2 ^ 32

/-- SHA-256 choice function. -/
def shaCh (x y z : Nat) : Nat := Nat.xor (x &&& y) (not32 x &&& z)

/-- SHA-256 majority function. -/
def shaMaj (x y z : Nat) : Nat := Nat.xor (Nat.xor (x &&& y) (x &&& z)) (y &&& z)

/-- SHA-256 big sigma 0. -/
def bigSigma0 (x : Nat) : Nat := Nat.xor (Nat.xor (rotr32 2 x) (rotr32 13 x)) (rotr32 22 x)

/-- SHA-256 big sigma 1. -/
def bigSigma1 (x : Nat) : Nat := Nat.xor (Nat.xor (rotr32 6 x) (rotr32 11 x)) (rotr32 25 x)

/-- SHA-256 small sigma 0. -/
def smallSigma0 (x : Nat) : Nat := Nat.xor (Nat.xor (rotr32 7 x) (rotr32 18 x)) (w32 (x >>> 3))

/-- SHA-256 small sigma 1. -/
def smallSigma1 (x : Nat) : Nat := Nat.xor (Nat.xor (rotr32 17 x) (rotr32 19 x)) (w32 (x >>> 10))

/-- The 64 SHA-256 round constants. -/
def shaK : List Nat :=
  [1116352408, 1899447441, 3049323471, 3921009573, 961987163,
   1508970993, 2453635748, 2870763221, 3624381080, 310598401,
   607225278, 1426881987, 1925078388, 2162078206, 2614888103,
   3248222580, 3835390401, 4022224774, 264347078, 604807628,
   770255983, 1249150122, 1555081692, 1996064986, 2554220882,
   2821834349, 2952996808, 3210313671, 3336571891, 3584528711,
   113926993, 338241895, 666307205, 773529912, 1294757372,
   1396182291, 1695183700, 1986661051, 2177026350, 2456956037,
   2730485921, 2820302411, 3259730800, 3345764771, 3516065817,
   3600352804, 4094571909, 275423344, 430227734, 506948616,
   659060556, 883997877, 958139571, 1322822218, 1537002063,
   1747873779, 1955562222, 2024104815, 2227730452, 2361852424,
   2428436474, 2756734187, 3204031479, 3329325298]

/-- The SHA-256 initial hash value. -/
def shaH0 : List Nat :=
  [1779033703, 3144134277, 1013904242, 2773480762,
   1359893119, 2600822924, 528734635, 1541459225]

/-- Big-endian byte serialization of `n` into `k` bytes. -/
def toBytesBE (k n : Nat) : List Nat :=
  (List.range k).map (fun i => n / 256 ^ (k - 1 - i) % 256)

/-- Big-endian interpretation of a byte list as one number. -/
def bytesToWordBE (b : List Nat) : Nat := b.foldl (fun acc x => acc * 256 + x) 0

/-- SHA-256 padding: append `0x80`, zeros up to 56 modulo 64, then the
bit length as an 8-byte big-endian number. -/
def padMessage (msg : List Nat) : List Nat :=
  msg ++ [0x80] ++ List.replicate ((119 - msg.length % 64) % 64) 0 ++
    toBytesBE 8 (8 * msg.length % 2 ^ 64)

/-- Split a byte list into successive 64-byte blocks. -/
def chunks64 : List Nat → List (List Nat)
  | [] => []
  | c :: cs => (c :: cs).take 64 :: chunks64 ((c :: cs).drop 64)
  termination_by l => l.length
  decreasing_by simp; omega

/-- Split a byte list into successive 4-byte groups. -/
def chunks4 : List Nat → List (List Nat)
  | [] => []
  | c :: cs => (c :: cs).take 4 :: chunks4 ((c :: cs).drop 4)
  termination_by l => l.length
  decreasing_by simp; omega

/-- SHA-256 message schedule for one block, given its sixteen words. -/
def msgSchedule (ws : List Nat) (t : Nat) : Nat :=
  if _h : t < 16 then ws.getD t 0
  else
    w32 (smallSigma1 (msgSchedule ws (t - 2)) + msgSchedule ws (t - 7) +
      smallSigma0 (msgSchedule ws (t - 15)) + msgSchedule ws (t - 16))
  termination_by t
  decreasing_by all_goals omega

/-- One SHA-256 round on the eight-word working state. -/
def shaRound (ws : List Nat) (st : List Nat) (t : Nat) : List Nat :=
  match st with
  | [a, b, c, d, e, f, g, h] =>
    let t1 := w32 (h + bigSigma1 e + shaCh e f g + shaK.getD t 0 + msgSchedule ws t)
    let t2 := w32 (bigSigma0 a + shaMaj a b c)
    [w32 (t1 + t2), a, b, c, w32 (d + t1), e, f, g]
  | other => other

/-- Process one 64-byte block, updating the eight-word hash state. -/
def processBlock (hs : List Nat) (block : List Nat) : List Nat :=
  let ws := (chunks4 block).map bytesToWordBE
  let st := (List.range 64).foldl (shaRound ws) hs
  (hs.zip st).map (fun p => w32 (p.1 + p.2))

/-- SHA-256 digest of a byte list, as a list of 32 bytes. -/
def sha256bytes (msg : List Nat) : List Nat :=
  (((chunks64 (padMessage msg)).foldl processBlock shaH0).map (toBytesBE 4)).flatten

/-- The sixteen lowercase hexadecimal digit characters, `0`-`9` then
`a`-`f`. -/
def hexDigits : List Char := (List.range 16).map Nat.digitChar

/-- Lowercase hexadecimal rendering of a byte list, two characters per
byte, as produced by `hexdigest()`. -/
def bytesToHex (bs : List Nat) : List Char :=
  (bs.map (fun b => [Nat.digitChar (b / 16 % 16), Nat.digitChar (b % 16)])).flatten

/-- Lowercase hexadecimal SHA-256 digest of a byte list hashed in one
single update. -/
def sha256hex (msg : List Nat) : List Char := bytesToHex (sha256bytes msg)

/-- `iter(lambda: f.read(4096), b"")` in `src/release.py` line 133: the
file content split into successive 4096-byte reads, ending when a read
returns the empty byte string. -/
def readBlocks4096 : List Nat → List (List Nat)
  | [] => []
  | c :: cs => (c :: cs).take 4096 :: readBlocks4096 ((c :: cs).drop 4096)
  termination_by l => l.length
  decreasing_by simp; omega

/-- `calculate_sha256` from `src/release.py` lines 129-135: an incremental
sha256 object absorbs each 4096-byte block via `update` (the hash-object
state is the byte sequence absorbed so far, which `update` extends), and
`hexdigest()` returns the lowercase hex digest of the absorbed
sequence. -/
def calculate_sha256 (content : List Nat) : List Char :=
  sha256hex ((readBlocks4096 content).foldl (fun acc b => acc ++ b) [])

/-! ## Modelled lifecycle manager: single-flight `ensure_ready` (spec 4.4) -/

/-- Modelled from the spec: the load-path phases of a `ModelInstance`
(spec section 3), restricted to the fresh-load scenario of spec section
4.4 steps 2-3 and 5 (`Resolving → Downloading → Loading → Ready`); the
Go lifecycle manager is not part of the source tree. -/
inductive InstPhase
  | Resolving
  | Downloading
  | Loading
  | Ready
deriving DecidableEq

/-- Modelled from the spec: the instance table of the lifecycle manager,
mapping each model identifier (a natural) to the phase of its instance,
`none` when no instance exists. -/
def InstTable := Nat → Option InstPhase

/-- Pointwise update of an instance table. -/
def updTable (s : InstTable) (i : Nat) (p : Option InstPhase) : InstTable :=
  fun j => if j = i then p else s j

/-- Modelled from the spec: the observable events of concurrent
`ensure_ready` calls — a caller creates the instance, the single owner
advances it through the Downloading and Loading phases, and any other
caller attaches to the existing instance. -/
inductive LMEvent
  | create (i : Nat)
  | startDownload (i : Nat)
  | startLoad (i : Nat)
  | finishLoad (i : Nat)
  | attach (i : Nat)
deriving DecidableEq

/-- Modelled from the spec: one interleaved step of the lifecycle manager
under concurrent `ensure_ready` calls (spec section 4.4 steps 1-3, 5).
An instance is created only when none exists for the identifier; the
Downloading phase starts only from `Resolving`; the Loading phase starts
only from `Downloading`; a caller finding an existing instance in any
phase attaches without changing the table. -/
inductive LMStep : InstTable → LMEvent → InstTable → Prop
  | create (s : InstTable) (j : Nat) :
      s j = none → LMStep s (.create j) (updTable s j (some .Resolving))
  | startDownload (s : InstTable) (j : Nat) :
      s j = some .Resolving →
      LMStep s (.startDownload j) (updTable s j (some .Downloading))
  | startLoad (s : InstTable) (j : Nat) :
      s j = some .Downloading →
      LMStep s (.startLoad j) (updTable s j (some .Loading))
  | finishLoad (s : InstTable) (j : Nat) :
      s j = some .Loading → LMStep s (.finishLoad j) (updTable s j (some .Ready))
  | attach (s : InstTable) (j : Nat) (p : InstPhase) :
      s j = some p → LMStep s (.attach j) s

/-- A finite interleaving of lifecycle-manager steps with its event
trace. -/
inductive LMTrace : InstTable → List LMEvent → InstTable → Prop
  | nil (s : InstTable) : LMTrace s [] s
  | cons {s s' s'' : InstTable} {e : LMEvent} {es : List LMEvent} :
      LMStep s e s' → LMTrace s' es s'' → LMTrace s (e :: es) s''

/-- Progress rank of an instance-table entry along the load path. -/
def phaseRank : Option InstPhase → Nat
  | none => 0
  | some .Resolving => 1
  | some .Downloading => 2
  | some .Loading => 3
  | some .Ready => 4

/-! ## Modelled GPU resource tracker and admission (spec 3, 4.3, 4.4) -/

/-- Modelled from the spec: a resident (Ready or Busy) model instance as
the GPU memory accountant sees it: identifier, assigned device index and
memory footprint estimate (spec section 3, `ModelInstance` and
`GPUDevice`); the Go GPU resource tracker is not part of the source
tree. -/
structure ResInst where
  id : Nat
  dev : Nat
  footprint : Nat
deriving DecidableEq

/-- Memory currently allocated on device `d`: the sum of the footprints
of the resident instances assigned to `d`. -/
def allocated (res : List ResInst) (d : Nat) : Nat :=
  ((res.filter (fun x => x.dev == d)).map (fun x => x.footprint)).sum

/-- Modelled from the spec: the memory-relevant lifecycle events — an
instance is admitted to the resident set on a successful load, and leaves
it on eviction or unload. -/
inductive MemEvent
  | reserve (x : ResInst)
  | evict (x : ResInst)

/-- Modelled from the spec: one step of the resident-set accounting.
Admission requires sufficient free memory on the assigned device at
admission time (spec section 3, `GPUDevice` invariant, and section 4.3
`reserve`); eviction or unload removes a resident instance. -/
inductive MemStep (cap : Nat → Nat) : List ResInst → MemEvent → List ResInst → Prop
  | reserve (res : List ResInst) (x : ResInst) :
      allocated res x.dev + x.footprint ≤ cap x.dev →
      MemStep cap res (.reserve x) (x :: res)
  | evict (res : List ResInst) (x : ResInst) :
      x ∈ res → MemStep cap res (.evict x) (res.erase x)

/-- A finite sequence of resident-set accounting steps. -/
inductive MemTrace (cap : Nat → Nat) :
    List ResInst → List MemEvent → List ResInst → Prop
  | nil (res : List ResInst) : MemTrace cap res [] res
  | cons {res res' res'' : List ResInst} {e : MemEvent} {es : List MemEvent} :
      MemStep cap res e res' → MemTrace cap res' es res'' →
      MemTrace cap res (e :: es) res''

/-! ## Modelled LRU eviction (spec 4.4 step 4 and section 8) -/

/-- Modelled from the spec: a loaded instance as the eviction scanner
sees it: identifier, footprint, reference count of in-flight requests,
pinned flag, last-access timestamp and creation order (spec section 3,
`ModelInstance`, and section 4.4 tie-break rule). -/
structure LruInst where
  id : Nat
  footprint : Nat
  refCount : Nat
  pinned : Bool
  lastAccess : Nat
  created : Nat
deriving DecidableEq

/-- An instance may be evicted only when its reference count is zero and
it is not pinned (spec section 3, `ModelInstance`). -/
def evictable (x : LruInst) : Bool := x.refCount == 0 && !x.pinned

/-- Eviction priority key: last-access time, ties broken by creation
order (spec section 4.4: older created first). -/
def lruKey (x : LruInst) : Lex (Nat × Nat) := toLex (x.lastAccess, x.created)

/-- Modelled from the spec: the eviction scan selects the evictable
instance with the least last-access time, ties broken by creation
order. -/
def selectVictim (l : List LruInst) : Option LruInst :=
  (l.filter evictable).argmin lruKey

/-- Modelled from the spec (4.4 step 4): evict in strict least-recently-
used order until `need` bytes are freed or no evictable candidate
remains, returning the eviction sequence and the remaining instances.
The fuel argument bounds the recursion by the number of instances; one
instance is removed per round, so `l.length` fuel is never exhausted. -/
def runEvictionAux : Nat → Nat → Nat → List LruInst → List LruInst × List LruInst
  | 0, _, _, l => ([], l)
  | fuel + 1, need, freed, l =>
    if need ≤ freed then ([], l)
    else
      match selectVictim l with
      | none => ([], l)
      | some v =>
        let r := runEvictionAux fuel need (freed + v.footprint) (l.erase v)
        (v :: r.1, r.2)

/-- Modelled from the spec: run the eviction scan for `need` bytes over
the loaded instances `l`, nothing freed yet. -/
def runEviction (need : Nat) (l : List LruInst) : List LruInst × List LruInst :=
  runEvictionAux l.length need 0 l

/-! ## Modelled identifier validation and request boundary (spec 4.1, 6-8) -/

/-- Modelled from the spec: characters allowed in a model identifier of
canonical form repo[:file] — letters, digits, and the punctuation
occurring in repository paths and GGUF file names (spec section 3,
`ModelIdentifier`). -/
def allowedChar (c : Char) : Bool :=
  c.isAlphanum || c == '-' || c == '_' || c == '.' || c == '/' || c == ':'

/-- Modelled from the spec (4.1): identifier validation — rejects the
empty string, strings over the configured maximum length, and strings
containing disallowed characters. -/
def validIdentifier (maxLen : Nat) (s : List Char) : Bool :=
  decide (s ≠ []) && decide (s.length ≤ maxLen) && s.all allowedChar

/-- Modelled from the spec: an externally observable side effect of
handling a request: a network call or filesystem/download activity. -/
inductive Effect
  | network
  | disk
deriving DecidableEq

/-- Modelled from the spec (7): the machine-readable error kinds relevant
to the request boundary. -/
inductive ErrKind
  | InvalidIdentifier
  | EmptyQuery
deriving DecidableEq

/-- An HTTP-style response: status code and optional error kind. -/
structure ApiResponse where
  status : Nat
  errKind : Option ErrKind
deriving DecidableEq

/-- Modelled from the spec (4.1, 4.4, 6): handling `POST /models/load` —
the identifier is validated before any network or filesystem activity;
on failure a 4xx `InvalidIdentifier` response is produced with no
effects, otherwise resolution contacts the catalog (network) and the
artifact is fetched (disk). -/
def handleLoad (maxLen : Nat) (s : List Char) : List Effect × ApiResponse :=
  if validIdentifier maxLen s then
    ([Effect.network, Effect.disk], ⟨200, none⟩)
  else
    ([], ⟨400, some ErrKind.InvalidIdentifier⟩)

/-- Modelled from the spec (6, 8): handling `GET /models/search` — an
empty query is rejected with a 4xx response before the external catalog
is contacted. -/
def handleSearch (q : List Char) : List Effect × ApiResponse :=
  if q = [] then ([], ⟨400, some ErrKind.EmptyQuery⟩)
  else ([Effect.network], ⟨200, none⟩)

/-! ## Modelled catalog resolution of suggested ids (spec 4.1, 8) -/

/-- Modelled from the spec: a remote search result entry — repository and
GGUF file name — from which the server builds its suggested model id. -/
structure SearchEntry where
  repo : List Char
  file : List Char

/-- Modelled from the spec: the suggested model identifier of a search
entry, canonical form repo:file. -/
def suggestedModelID (e : SearchEntry) : List Char := e.repo ++ ':' :: e.file

/-- Modelled from the spec (4.1): parse repo[:file] — split at the first
colon; without a colon there is no explicit file part. -/
def parseIdentifier : List Char → List Char × Option (List Char)
  | [] => ([], none)
  | c :: cs =>
    if c = ':' then ([], some cs)
    else
      let r := parseIdentifier cs
      (c :: r.1, r.2)

/-- Modelled from the spec (4.1): `resolve(identifier)` — validate, parse
repo[:file]; an explicit file part names the artifact directly, otherwise
the catalog's best-match default file for the repository is used. -/
def resolve (maxLen : Nat) (defaultFile : List Char → Option (List Char))
    (s : List Char) : Option (List Char × List Char) :=
  if validIdentifier maxLen s then
    match parseIdentifier s with
    | (repo, some file) => some (repo, file)
    | (repo, none) =>
      match defaultFile repo with
      | some f => some (repo, f)
      | none => none
  else none

/-- Modelled from the spec (4.4, 4.5, 8): resolve, ensure readiness
(downloading the artifact into the local cache when absent) and serve a
completion request; returns the artifact served together with the
resulting cache state, `none` when resolution fails. -/
def chatCompletion (maxLen : Nat) (defaultFile : List Char → Option (List Char))
    (cache : List (List Char × List Char)) (s : List Char) :
    Option ((List Char × List Char) × List (List Char × List Char)) :=
  match resolve maxLen defaultFile s with
  | none => none
  | some art => some (art, if art ∈ cache then cache else art :: cache)

/-! ## Modelled streaming response framing (spec 4.5, 6, 7) -/

/-- The server-sent-event line header of streamed chat chunks. -/
def dataHeader : List Char := ['d', 'a', 't', 'a', ':', ' ']

/-- One server-sent-event line: the header followed by the payload. -/
def sseLine (payload : List Char) : List Char := dataHeader ++ payload

/-- The stream-termination sentinel payload. -/
def doneSentinel : List Char := ['[', 'D', 'O', 'N', 'E', ']']

/-- Modelled from the spec: the outcome of token generation for one
accepted streaming request: the content chunks produced, and the error
payload when generation failed mid-stream. -/
structure StreamOutcome where
  chunks : List (List Char)
  err : Option (List Char)

/-- Modelled from the spec (6, 7): render an accepted streaming chat
completion as server-sent-event lines — one data line per generated
chunk, then on mid-stream failure one terminal error chunk, and finally
the sentinel line. -/
def renderStream (o : StreamOutcome) : List (List Char) :=
  o.chunks.map sseLine ++
    (match o.err with
     | some e => [sseLine e]
     | none => []) ++ [sseLine doneSentinel]

/-! ## Modelled download manager HTTP boundary (spec 4.2, 6) -/

/-- Status of a download job (spec section 3, `DownloadJob`). -/
inductive JobStatus
  | Queued
  | InProgress
  | Verifying
  | Complete
  | Failed
  | Canceled
deriving DecidableEq

/-- Modelled from the spec: one tracked download job: repository, file
name, destination path, status, and progress. -/
structure DownloadJob where
  repo : List Char
  filename : List Char
  destination : List Char
  status : JobStatus
  progress : Nat
deriving DecidableEq

/-- Modelled from the spec: the download manager's table of jobs keyed by
download id, with the next fresh id. -/
structure DownloadState where
  nextId : Nat
  jobs : List (Nat × DownloadJob)

/-- Modelled from the spec (6): `POST /models/download` with repo, file
name and destination registers a queued job under a fresh download id
and returns that id in the response body. -/
def postDownload (st : DownloadState) (repo filename destination : List Char) :
    DownloadState × Nat :=
  (⟨st.nextId + 1,
    (st.nextId, ⟨repo, filename, destination, JobStatus.Queued, 0⟩) :: st.jobs⟩,
   st.nextId)

/-- Modelled from the spec (6): `GET /models/downloads/id` returns the
status and progress of the job registered under that id, when one
exists. -/
def getDownloadStatus (st : DownloadState) (i : Nat) : Option (JobStatus × Nat) :=
  match st.jobs.lookup i with
  | some j => some (j.status, j.progress)
  | none => none

end FrogLLM

namespace FrogLLM

/-- Splitting into 4096-byte reads and concatenating recovers the file
content. -/
theorem readBlocks4096_join (l : List Nat) : (readBlocks4096 l).flatten = l := by
  induction l using readBlocks4096.induct with
  | case1 => simp [readBlocks4096]
  | case2 c cs ih =>
    simp only [List.drop_succ_cons] at ih
    simp [readBlocks4096, ih, List.take_append_drop]

/-- Folding list append over the 4096-byte reads concatenates them. -/
theorem readBlocks4096_foldl (l : List Nat) :
    (readBlocks4096 l).foldl (fun acc b => acc ++ b) [] = l := by
  have haux : ∀ (bs : List (List Nat)) (a : List Nat),
      bs.foldl (fun acc b => acc ++ b) a = a ++ bs.flatten := by
    intro bs
    induction bs with
    | nil => simp
    | cons b bs ih => intro a; simp [ih, List.append_assoc]
  simpa [readBlocks4096_join] using haux (readBlocks4096 l) []

/-- Every character emitted by `bytesToHex` is a lowercase hex digit. -/
theorem bytesToHex_mem_hexDigits (bs : List Nat) :
    ∀ c ∈ bytesToHex bs, c ∈ hexDigits := by
  intro c hc
  have hdigit : ∀ n : Nat, n < 16 → Nat.digitChar n ∈ hexDigits := by decide
  simp only [bytesToHex, List.mem_flatten, List.mem_map] at hc
  obtain ⟨piece, ⟨b, _, rfl⟩, hcp⟩ := hc
  simp only [List.mem_cons, List.not_mem_nil, or_false] at hcp
  rcases hcp with rfl | rfl
  · exact hdigit _ (Nat.mod_lt _ (by omega))
  · exact hdigit _ (Nat.mod_lt _ (by omega))

/-- C10: `calculate_sha256` feeds the content to the hash in 4096-byte
blocks and produces the same digest as hashing the entire content in a
single update, and that digest consists only of lowercase hexadecimal
characters. -/
theorem calculate_sha256_spec (content : List Nat) :
    calculate_sha256 content = sha256hex content ∧
    ∀ c ∈ calculate_sha256 content, c ∈ hexDigits := by
  have heq : calculate_sha256 content = sha256hex content := by
    simp [calculate_sha256, readBlocks4096_foldl]
  exact ⟨heq, by rw [heq]; exact bytesToHex_mem_hexDigits _⟩

/-- C8: `validate_version(v)` returns `True` iff `v` starts with `'v'` and
`v[1:]` split on `'.'` has at least two parts; no numeric check is made,
so `vX.Y` is accepted. -/
theorem validate_version_spec :
    (∀ v : List Char,
      validate_version v = true ↔
        v.head? = some 'v' ∧ 2 ≤ (pySplit '.' v.tail).length) ∧
    validate_version ('v' :: 'X' :: '.' :: 'Y' :: []) = true := by
  constructor
  · intro v
    cases v with
    | nil => simp [validate_version]
    | cons c rest =>
      simp [validate_version, Bool.and_eq_true, beq_iff_eq,
        decide_eq_true_iff, and_comm]
  · decide

/-- C9: `check_dependencies` returns `True` whenever the `npm --version`
subprocess completes with a nonzero exit code, and it returns `False`
exactly when invoking npm raises an exception or npm succeeds but the Go
version check fails (nonzero exit code or exception). -/
theorem check_dependencies_spec (npm go : RunOutcome) :
    (∀ rc : Int, rc ≠ 0 → check_dependencies (.completed rc) go = true) ∧
    (check_dependencies npm go = false ↔
      npm = .raised ∨ (npm = .completed 0 ∧ go ≠ .completed 0)) := by
  constructor
  · intro rc hrc
    simp [check_dependencies, hrc]
  · cases npm with
    | raised => simp [check_dependencies]
    | completed rc =>
      by_cases h : rc = 0
      · subst h
        cases go with
        | raised => simp [check_dependencies]
        | completed grc =>
          by_cases hg : grc = 0
          · subst hg; simp [check_dependencies]
          · simp [check_dependencies, hg]
      · simp [check_dependencies, h]

/-- Along any lifecycle trace, for every identifier the number of
`create`, `startDownload` and `startLoad` events equals the change of
the indicator that the instance has passed the corresponding phase
boundary; phase progress is monotone, so each count is at most one. -/
theorem lmTrace_counts {s0 s1 : InstTable} {tr : List LMEvent}
    (htr : LMTrace s0 tr s1) (i : Nat) :
    (tr.count (.create i) + (if 1 ≤ phaseRank (s0 i) then 1 else 0) =
      (if 1 ≤ phaseRank (s1 i) then 1 else 0)) ∧
    (tr.count (.startDownload i) + (if 2 ≤ phaseRank (s0 i) then 1 else 0) =
      (if 2 ≤ phaseRank (s1 i) then 1 else 0)) ∧
    (tr.count (.startLoad i) + (if 3 ≤ phaseRank (s0 i) then 1 else 0) =
      (if 3 ≤ phaseRank (s1 i) then 1 else 0)) := by
  induction htr with
  | nil s => simp
  | cons hstep _ ih =>
    obtain ⟨ih1, ih2, ih3⟩ := ih
    cases hstep with
    | create j hj =>
      by_cases hij : i = j
      · subst hij
        simp [List.count_cons, updTable, phaseRank, hj] at ih1 ih2 ih3 ⊢
        omega
      · simp [List.count_cons, updTable, hij] at ih1 ih2 ih3 ⊢
        omega
    | startDownload j hj =>
      by_cases hij : i = j
      · subst hij
        simp [List.count_cons, updTable, phaseRank, hj] at ih1 ih2 ih3 ⊢
        omega
      · simp [List.count_cons, updTable, hij] at ih1 ih2 ih3 ⊢
        omega
    | startLoad j hj =>
      by_cases hij : i = j
      · subst hij
        simp [List.count_cons, updTable, phaseRank, hj] at ih1 ih2 ih3 ⊢
        omega
      · simp [List.count_cons, updTable, hij] at ih1 ih2 ih3 ⊢
        omega
    | finishLoad j hj =>
      by_cases hij : i = j
      · subst hij
        simp [List.count_cons, updTable, phaseRank, hj] at ih1 ih2 ih3 ⊢
        omega
      · simp [List.count_cons, updTable, hij] at ih1 ih2 ih3 ⊢
        omega
    | attach j p hj =>
      by_cases hij : i = j
      · subst hij
        simp [List.count_cons, hj] at ih1 ih2 ih3 ⊢
        omega
      · simp [List.count_cons, hij] at ih1 ih2 ih3 ⊢
        omega

/-- C1: in any interleaving of concurrent `ensure_ready(i)` calls starting
with no instance for `i`, at most one instance for `i` is created, the
Downloading and Loading phases for `i` each start at most once, and when
the run ends with `i` Ready they each started exactly once; every other
caller action is an `attach` to the in-progress work, which leaves the
instance table unchanged by definition of the step relation. -/
theorem ensure_ready_single_flight {s0 s1 : InstTable} {tr : List LMEvent}
    (i : Nat) (htr : LMTrace s0 tr s1) (h0 : s0 i = none) :
    tr.count (.create i) ≤ 1 ∧
    tr.count (.startDownload i) ≤ 1 ∧
    tr.count (.startLoad i) ≤ 1 ∧
    (s1 i = some .Ready →
      tr.count (.startDownload i) = 1 ∧ tr.count (.startLoad i) = 1) := by
  obtain ⟨h1, h2, h3⟩ := lmTrace_counts htr i
  rw [h0] at h1 h2 h3
  simp [phaseRank] at h1 h2 h3
  refine ⟨by split at h1 <;> omega, by split at h2 <;> omega,
    by split at h3 <;> omega, fun hready => ?_⟩
  rw [hready] at h2 h3
  simp [phaseRank] at h2 h3
  exact ⟨h2, h3⟩

/-- Witness for C1: a concrete interleaving in which a first caller
creates and drives the load of identifier 0 while a second caller
attaches twice; the Downloading and Loading phases each occur exactly
once. -/
theorem ensure_ready_single_flight_witness :
    ([LMEvent.create 0, .attach 0, .startDownload 0, .attach 0,
        .startLoad 0, .finishLoad 0].count (LMEvent.startDownload 0) = 1) ∧
    ([LMEvent.create 0, .attach 0, .startDownload 0, .attach 0,
        .startLoad 0, .finishLoad 0].count (LMEvent.startLoad 0) = 1) := by
  have htr : LMTrace (fun _ => none)
      [LMEvent.create 0, .attach 0, .startDownload 0, .attach 0,
        .startLoad 0, .finishLoad 0]
      (updTable (updTable (updTable (updTable (fun _ => none)
        0 (some .Resolving)) 0 (some .Downloading)) 0 (some .Loading))
        0 (some .Ready)) := by
    refine LMTrace.cons (LMStep.create _ 0 rfl) ?_
    refine LMTrace.cons (LMStep.attach _ 0 .Resolving rfl) ?_
    refine LMTrace.cons (LMStep.startDownload _ 0 rfl) ?_
    refine LMTrace.cons (LMStep.attach _ 0 .Downloading rfl) ?_
    refine LMTrace.cons (LMStep.startLoad _ 0 rfl) ?_
    exact LMTrace.cons (LMStep.finishLoad _ 0 rfl) (LMTrace.nil _)
  exact (ensure_ready_single_flight 0 htr rfl).2.2.2 rfl

/-- Allocation on a device after admitting one instance. -/
theorem allocated_cons (x : ResInst) (res : List ResInst) (d : Nat) :
    allocated (x :: res) d =
      (if x.dev = d then x.footprint else 0) + allocated res d := by
  by_cases h : x.dev = d <;> simp [allocated, List.filter_cons, h]

/-- Removing an instance never increases allocation on any device. -/
theorem allocated_erase_le (x : ResInst) (res : List ResInst) (d : Nat) :
    allocated (res.erase x) d ≤ allocated res d := by
  unfold allocated
  exact List.Sublist.sum_le_sum
    (((res.erase_sublist x).filter _).map _) (by simp)

/-- The per-device allocation bound is preserved along every accounting
trace. -/
theorem memTrace_allocated_le {cap : Nat → Nat} {res0 res1 : List ResInst}
    {tr : List MemEvent} (htr : MemTrace cap res0 tr res1)
    (h0 : ∀ d, allocated res0 d ≤ cap d) : ∀ d, allocated res1 d ≤ cap d := by
  induction htr with
  | nil res => exact h0
  | cons hstep _ ih =>
    apply ih
    cases hstep with
    | reserve x hx =>
      intro d
      rw [allocated_cons]
      by_cases h : x.dev = d
      · subst h
        simp only [if_pos trivial, if_true]
        omega
      · simpa [h] using h0 d
    | evict x hx =>
      intro d
      exact le_trans (allocated_erase_le _ _ d) (h0 d)

/-- C2: along every accounting run from an empty resident set, after
every step the memory allocated on each GPU device — the sum of the
footprints of the resident (Ready/Busy) instances assigned to it — is at
most the device capacity; and an instance is admitted only when its
assigned device has enough free memory at admission time. -/
theorem gpu_memory_invariant (cap : Nat → Nat) :
    (∀ tr res, MemTrace cap [] tr res → ∀ d, allocated res d ≤ cap d) ∧
    (∀ res x res', MemStep cap res (.reserve x) res' →
      allocated res x.dev + x.footprint ≤ cap x.dev) := by
  constructor
  · intro tr res htr
    exact memTrace_allocated_le htr (fun d => by simp [allocated])
  · intro res x res' hstep
    cases hstep with
    | reserve _ hx => exact hx

/-- Witness for C2: two admissions of footprints 6 and 4 on device 0 of
capacity 10 keep the allocation within capacity. -/
theorem gpu_memory_invariant_witness :
    allocated [ResInst.mk 1 0 4, ResInst.mk 0 0 6] 0 ≤ 10 :=
  (gpu_memory_invariant (fun _ => 10)).1
    [MemEvent.reserve (ResInst.mk 0 0 6), MemEvent.reserve (ResInst.mk 1 0 4)]
    [ResInst.mk 1 0 4, ResInst.mk 0 0 6]
    (MemTrace.cons (MemStep.reserve [] (ResInst.mk 0 0 6) (by decide))
      (MemTrace.cons (MemStep.reserve [ResInst.mk 0 0 6] (ResInst.mk 1 0 4)
        (by decide)) (MemTrace.nil _))) 0

/-- Behaviour of the fueled eviction scan: everything it returns comes
from the input; evicted instances are evictable, listed in LRU order and
minimal among the evictable survivors; non-evictable instances all
survive. -/
theorem runEvictionAux_spec (fuel : Nat) :
    ∀ (need freed : Nat) (l : List LruInst),
    (∀ x ∈ (runEvictionAux fuel need freed l).1, x ∈ l) ∧
    (∀ x ∈ (runEvictionAux fuel need freed l).2, x ∈ l) ∧
    (∀ x ∈ (runEvictionAux fuel need freed l).1, evictable x = true) ∧
    (∀ x ∈ l, evictable x = false → x ∈ (runEvictionAux fuel need freed l).2) ∧
    (∀ x ∈ (runEvictionAux fuel need freed l).1,
      ∀ y ∈ (runEvictionAux fuel need freed l).2,
        evictable y = true → lruKey x ≤ lruKey y) ∧
    List.Pairwise (fun a b => lruKey a ≤ lruKey b)
      (runEvictionAux fuel need freed l).1 := by
  induction fuel with
  | zero =>
    intro need freed l
    simp [runEvictionAux]
    exact fun x hx _ => hx
  | succ fuel ih =>
    intro need freed l
    by_cases hfree : need ≤ freed
    · simp [runEvictionAux, hfree]
      exact fun x hx _ => hx
    · cases hv : selectVictim l with
      | none =>
        simp [runEvictionAux, hfree, hv]
        exact fun x hx _ => hx
      | some v =>
        have hvmem : v ∈ l.filter evictable :=
          List.argmin_mem (Option.mem_def.mpr hv)
        have hvl : v ∈ l := List.mem_of_mem_filter hvmem
        have hvev : evictable v = true := List.of_mem_filter hvmem
        have hmin : ∀ y ∈ l, evictable y = true → lruKey v ≤ lruKey y :=
          fun y hy hyev =>
            List.le_of_mem_argmin (List.mem_filter.mpr ⟨hy, hyev⟩)
              (Option.mem_def.mpr hv)
        obtain ⟨ih1, ih2, ih3, ih4, ih5, ih6⟩ :=
          ih need (freed + v.footprint) (l.erase v)
        simp only [runEvictionAux, if_neg hfree, hv]
        refine ⟨?_, ?_, ?_, ?_, ?_, ?_⟩
        · intro x hx
          rcases List.mem_cons.mp hx with rfl | hx
          · exact hvl
          · exact List.mem_of_mem_erase (ih1 x hx)
        · intro x hx
          exact List.mem_of_mem_erase (ih2 x hx)
        · intro x hx
          rcases List.mem_cons.mp hx with rfl | hx
          · exact hvev
          · exact ih3 x hx
        · intro x hx hxev
          have hne : x ≠ v := fun h => by rw [h, hvev] at hxev; cases hxev
          exact ih4 x ((List.mem_erase_of_ne hne).mpr hx) hxev
        · intro x hx y hy hyev
          rcases List.mem_cons.mp hx with rfl | hx
          · exact hmin y (List.mem_of_mem_erase (ih2 y hy)) hyev
          · exact ih5 x hx y hy hyev
        · refine List.Pairwise.cons ?_ ih6
          intro x hx
          exact hmin x (List.mem_of_mem_erase (ih1 x hx)) (ih3 x hx)

/-- C3: every instance removed by the eviction scan has reference count
zero and is unpinned; the removals are in strict least-recently-accessed
order (ties broken by creation order) and each removed instance is no
more recently accessed than any evictable survivor; a pinned or
referenced instance is never evicted and always survives the scan. -/
theorem eviction_lru_order (need : Nat) (l : List LruInst) :
    (∀ x ∈ (runEviction need l).1, x.refCount = 0 ∧ x.pinned = false) ∧
    List.Pairwise (fun a b => lruKey a ≤ lruKey b) (runEviction need l).1 ∧
    (∀ x ∈ (runEviction need l).1, ∀ y ∈ (runEviction need l).2,
      evictable y = true → lruKey x ≤ lruKey y) ∧
    (∀ x ∈ l, x.pinned = true ∨ x.refCount ≠ 0 → x ∈ (runEviction need l).2) := by
  obtain ⟨h1, h2, h3, h4, h5, h6⟩ := runEvictionAux_spec l.length need 0 l
  refine ⟨?_, h6, h5, ?_⟩
  · intro x hx
    have hev := h3 x hx
    simp [evictable, Bool.and_eq_true] at hev
    exact hev
  · intro x hx hbad
    apply h4 x hx
    simp [evictable]
    intro h0
    rcases hbad with hp | hr
    · exact hp
    · exact absurd h0 hr

/-- Witness for C3: three loaded instances with the middle one pinned and
the most recent one referenced; under pressure the pinned instance is
never evicted — it survives the scan. -/
theorem eviction_lru_order_witness :
    LruInst.mk 1 5 0 true 2 1 ∈ (runEviction 5
      [LruInst.mk 0 3 0 false 1 0, LruInst.mk 1 5 0 true 2 1,
        LruInst.mk 2 4 1 false 3 2]).2 :=
  (eviction_lru_order 5
      [LruInst.mk 0 3 0 false 1 0, LruInst.mk 1 5 0 true 2 1,
        LruInst.mk 2 4 1 false 3 2]).2.2.2
    (LruInst.mk 1 5 0 true 2 1) (by decide) (Or.inl rfl)

/-- C4: an identifier is invalid exactly when it is empty, over the
configured length, or contains a disallowed character; an invalid
identifier is rejected with a 4xx `InvalidIdentifier` response and an
empty effect list — no network or filesystem/download activity — and the
empty search query is likewise rejected with a 4xx response and no
effects. -/
theorem invalid_identifier_rejected_before_io (maxLen : Nat) (s q : List Char) :
    (validIdentifier maxLen s = false ↔
      s = [] ∨ maxLen < s.length ∨ ∃ c ∈ s, allowedChar c = false) ∧
    (validIdentifier maxLen s = false →
      handleLoad maxLen s = ([], ⟨400, some ErrKind.InvalidIdentifier⟩)) ∧
    (q = [] → handleSearch q = ([], ⟨400, some ErrKind.EmptyQuery⟩)) := by
  refine ⟨?_, ?_, ?_⟩
  · constructor
    · intro h
      by_contra hcon
      push_neg at hcon
      obtain ⟨h1, h2, h3⟩ := hcon
      have hv : validIdentifier maxLen s = true := by
        simp only [validIdentifier, Bool.and_eq_true, decide_eq_true_eq,
          List.all_eq_true]
        refine ⟨⟨h1, by omega⟩, ?_⟩
        intro c hc
        have hcc := h3 c hc
        simpa [Bool.not_eq_false] using hcc
      rw [hv] at h
      cases h
    · intro h
      rw [← Bool.not_eq_true]
      simp only [validIdentifier, Bool.and_eq_true, decide_eq_true_eq,
        List.all_eq_true, not_and_or]
      rcases h with rfl | h | ⟨c, hc, hcf⟩
      · exact Or.inl (Or.inl (by simp))
      · exact Or.inl (Or.inr (by omega))
      · exact Or.inr (by push_neg; exact ⟨c, hc, by simp [hcf]⟩)
  · intro h
    simp [handleLoad, h]
  · intro h
    simp [handleSearch, h]

/-- Witness for C4: the identifier consisting of one exclamation mark and
the empty search query are both rejected with 4xx and no effects. -/
theorem invalid_identifier_rejected_before_io_witness :
    handleLoad 64 ['!'] = ([], ⟨400, some ErrKind.InvalidIdentifier⟩) ∧
    handleSearch [] = ([], ⟨400, some ErrKind.EmptyQuery⟩) :=
  ⟨(invalid_identifier_rejected_before_io 64 ['!'] []).2.1 (by decide),
   (invalid_identifier_rejected_before_io 64 ['!'] []).2.2 rfl⟩

/-- Parsing a repo:file identifier whose repository part contains no
colon recovers exactly the repository and the file. -/
theorem parseIdentifier_suggested (repo file : List Char)
    (h : ∀ c ∈ repo, c ≠ ':') :
    parseIdentifier (repo ++ ':' :: file) = (repo, some file) := by
  induction repo with
  | nil => simp [parseIdentifier]
  | cons c cs ih =>
    have hc : c ≠ ':' := h c (List.mem_cons_self c cs)
    simp [parseIdentifier, hc,
      ih (fun x hx => h x (List.mem_cons_of_mem c hx))]

/-- C5: the model identifier suggested by a remote search result resolves
deterministically to the artifact named by that search result — the
entry's repository/file pair — and resolving, ensuring readiness and
serving a completion on that identifier succeeds with that same artifact
for every local cache state, hence identically across repeated runs with
the same cache state. -/
theorem suggested_id_round_trip (maxLen : Nat)
    (defaultFile : List Char → Option (List Char)) (e : SearchEntry)
    (hrepo : ∀ c ∈ e.repo, c ≠ ':')
    (hvalid : validIdentifier maxLen (suggestedModelID e) = true) :
    resolve maxLen defaultFile (suggestedModelID e) = some (e.repo, e.file) ∧
    ∀ cache, (chatCompletion maxLen defaultFile cache (suggestedModelID e)).map
        Prod.fst = some (e.repo, e.file) := by
  have hres : resolve maxLen defaultFile (suggestedModelID e) =
      some (e.repo, e.file) := by
    have hv : validIdentifier maxLen (e.repo ++ ':' :: e.file) = true := by
      simpa [suggestedModelID] using hvalid
    simp [resolve, suggestedModelID, hv,
      parseIdentifier_suggested e.repo e.file hrepo]
  exact ⟨hres, fun cache => by simp [chatCompletion, hres]⟩

/-- Witness for C5: the suggested id built from the Qwen search entry of
the test suite resolves to that repository/file artifact. -/
theorem suggested_id_round_trip_witness :
    resolve 128 (fun _ => none)
      (suggestedModelID ⟨"Qwen/Qwen2.5-0.5B-Instruct-GGUF".toList,
        "qwen2.5-0.5b-instruct-q4_k_m.gguf".toList⟩) =
      some ("Qwen/Qwen2.5-0.5B-Instruct-GGUF".toList,
        "qwen2.5-0.5b-instruct-q4_k_m.gguf".toList) :=
  (suggested_id_round_trip 128 (fun _ => none)
    ⟨"Qwen/Qwen2.5-0.5B-Instruct-GGUF".toList,
      "qwen2.5-0.5b-instruct-q4_k_m.gguf".toList⟩
    (by decide) (by decide)).1

/-- C6: an accepted streaming response is a finite, non-empty sequence of
lines each framed with the server-sent-event data header, terminated by
the DONE sentinel line; when generation fails mid-stream the rendered
stream carries a terminal error chunk immediately before the sentinel
rather than silently truncating. -/
theorem streaming_framing (o : StreamOutcome) :
    renderStream o ≠ [] ∧
    (∀ l ∈ renderStream o, l.take 6 = dataHeader) ∧
    (renderStream o).getLast? = some (sseLine doneSentinel) ∧
    (∀ e, o.err = some e →
      renderStream o =
        o.chunks.map sseLine ++ [sseLine e, sseLine doneSentinel]) := by
  obtain ⟨chunks, err⟩ := o
  have hline : ∀ p : List Char, (sseLine p).take 6 = dataHeader := fun p => rfl
  cases err with
  | none =>
    refine ⟨by simp [renderStream], ?_, ?_, ?_⟩
    · intro l hl
      simp [renderStream] at hl
      rcases hl with ⟨p, _, rfl⟩ | rfl
      · exact hline p
      · exact hline doneSentinel
    · simp [renderStream, List.getLast?_concat]
    · intro e he
      cases he
  | some er =>
    refine ⟨by simp [renderStream], ?_, ?_, ?_⟩
    · intro l hl
      simp [renderStream] at hl
      rcases hl with ⟨p, _, rfl⟩ | rfl | rfl
      · exact hline p
      · exact hline er
      · exact hline doneSentinel
    · simp [renderStream, ← List.append_assoc, List.getLast?_concat]
    · intro e he
      cases he
      simp [renderStream]

/-- Witness for C6: a one-chunk stream that fails mid-way renders as the
chunk line, the terminal error line, then the sentinel line. -/
theorem streaming_framing_witness :
    renderStream ⟨[['h', 'i']], some ['e']⟩ =
      [sseLine ['h', 'i'], sseLine ['e'], sseLine doneSentinel] :=
  (streaming_framing ⟨[['h', 'i']], some ['e']⟩).2.2.2 ['e'] rfl

/-- C7: `POST /models/download` with repo, file name and destination
returns a download id, and an immediately subsequent
`GET /models/downloads/id` with that id finds the registered job and
returns its status and progress. -/
theorem download_endpoint_round_trip (st : DownloadState)
    (repo filename destination : List Char) :
    getDownloadStatus (postDownload st repo filename destination).1
        (postDownload st repo filename destination).2 =
      some (JobStatus.Queued, 0) := by
  simp [postDownload, getDownloadStatus, List.lookup]

/-- Witness for C9 at concrete inputs: npm exiting with code 1 yields
`True`; npm raising yields `False`. -/
theorem check_dependencies_spec_witness :
    check_dependencies (.completed 1) .raised = true ∧
    check_dependencies .raised (.completed 0) = false :=
  ⟨(check_dependencies_spec (.completed 1) .raised).1 1 (by decide),
   ((check_dependencies_spec .raised (.completed 0)).2).2 (Or.inl rfl)⟩

end FrogLLM
